import Mathlib

/-!
Shallow embedding of the core game loop of `src/src/systems/term.rs`
(`TuiSystem::run` and `TuiSystem::take_items`).

Cell coordinates are integers (`Int`); the player's position is a pair of
rationals, standing in for the `f64` coordinates produced by
`(canvas_width as f64 / 2.0).round()` — all values that arise are exactly
representable, so `ℚ` is a faithful model.  The legion `World` is modelled
as a `List GameCell` whose order is registry iteration order; entity
identity is the index in that list.
-/

namespace Blademaster

/-- The cell kinds of the game (`CellKind` in the repository). -/
inductive CellKind
  | SoftArmor
  | HardArmor
  | BluntWeapon
  | EdgedWeapon
  | PointedWeapon
  | RangedWeapon
  | ClosedDoor
  | OpenedDoor
  | Wall
  deriving DecidableEq, Repr

/-- Collision classification of a cell (`CellAccess` in the repository). -/
inductive CellAccess
  | Impassable
  | Takeable
  | Passable
  deriving DecidableEq, Repr

/-- The subset of `tui::style::Color` values the core loop uses. -/
inductive TuiColor
  | Blue
  | Green
  | White
  | Rgb (r g b : Nat)
  deriving DecidableEq, Repr

/-- One grid entity (`GameCell` in the repository): integer position,
kind, derived access, display name and color. -/
structure GameCell where
  x : Int
  y : Int
  kind : CellKind
  access : CellAccess
  name : String
  color : TuiColor
  deriving DecidableEq, Repr

/-- Modelled from the spec: `GameCell::move_up` is defined outside `src/`.
Per §4.2 step 4 an Up command makes every cell move down one unit; the game
canvas's y axis points up, so the cell's y coordinate decreases. -/
def GameCell.move_up (c : GameCell) : GameCell := { c with y := c.y - 1 }

/-- Modelled from the spec: `GameCell::move_down` is defined outside `src/`.
Per §4.2 step 4 a Down command makes every cell move up one unit (y
increases). -/
def GameCell.move_down (c : GameCell) : GameCell := { c with y := c.y + 1 }

/-- Modelled from the spec: `GameCell::move_right` is defined outside `src/`.
Per §4.2 step 4 a Left command makes every cell move right one unit (x
increases). -/
def GameCell.move_right (c : GameCell) : GameCell := { c with x := c.x + 1 }

/-- Modelled from the spec: `GameCell::move_left` is defined outside `src/`.
Per §4.2 step 4 a Right command makes every cell move left one unit (x
decreases). -/
def GameCell.move_left (c : GameCell) : GameCell := { c with x := c.x - 1 }

/-- Modelled from the spec: `GameCell::inside` is defined outside `src/`.
Per §6 the visibility test clips cells to the rectangle
`[1,1]..[term_width,term_height]`; the call site is
`gamecell.inside(1, 1, term_width, term_height)`. -/
def GameCell.inside (c : GameCell) (left top right bottom : Nat) : Bool :=
  decide ((left : Int) ≤ c.x) && decide (c.x ≤ (right : Int)) &&
  decide ((top : Int) ≤ c.y) && decide (c.y ≤ (bottom : Int))

/-- The tolerance test the source applies to each coordinate pair:
`(a - (n as f64)).abs() < 1.0`, where `a` is a player coordinate and `n`
an integer computed from a cell coordinate.  Implemented by
cross-multiplication so that the kernel can evaluate it;
`ratNear_iff` proves it equal to `|a - n| < 1`. -/
def ratNear (a : ℚ) (n : ℤ) : Bool :=
  decide ((a.num - n * (a.den : ℤ)).natAbs < a.den)

/-- The four directional commands read from the input stream
(`Key::Up`, `Key::Down`, `Key::Left`, `Key::Right`). -/
inductive Dir
  | up
  | down
  | left
  | right
  deriving DecidableEq, Repr

/-- The discrete input events consumed by the loop: the four arrow keys,
the quit key `q`, and any other event (the `_ => ()` arm). -/
inductive InputEvent
  | dir (d : Dir)
  | quitKey
  | other
  deriving DecidableEq, Repr

/-- The collision test the source runs for each direction, transcribed
from the four `match` arms of `TuiSystem::run`:

* Up:    `access == Impassable && |p.x - c.x| < 1 && |p.y - (c.y - 1)| < 1`
* Down:  `access == Impassable && |p.x - c.x| < 1 && |p.y - (c.y + 1)| < 1`
* Left:  `access == Impassable && |p.x - (c.x + 1)| < 1 && |p.y - c.y| < 1`
* Right: `access == Impassable && |p.x - (c.x - 1)| < 1 && |p.y - c.y| < 1`
-/
def neighborCheck (d : Dir) (p : ℚ × ℚ) (c : GameCell) : Bool :=
  match d with
  | .up =>
      decide (c.access = CellAccess.Impassable) &&
      ratNear p.1 c.x && ratNear p.2 (c.y - 1)
  | .down =>
      decide (c.access = CellAccess.Impassable) &&
      ratNear p.1 c.x && ratNear p.2 (c.y + 1)
  | .left =>
      decide (c.access = CellAccess.Impassable) &&
      ratNear p.1 (c.x + 1) && ratNear p.2 c.y
  | .right =>
      decide (c.access = CellAccess.Impassable) &&
      ratNear p.1 (c.x - 1) && ratNear p.2 c.y

/-- The per-cell translation the source applies when no collision is
detected: Up calls `move_up`, Down calls `move_down`, Left calls
`move_right`, Right calls `move_left`. -/
def moveFor (d : Dir) : GameCell → GameCell :=
  match d with
  | .up => GameCell.move_up
  | .down => GameCell.move_down
  | .left => GameCell.move_right
  | .right => GameCell.move_left

/-- The padding the `format!` strings append: the single-space argument
right-aligned to minimum width `canvas_width / 2`, hence
`max (canvasWidth / 2) 1` spaces. -/
def eventPad (canvasWidth : Nat) : String :=
  String.mk (List.replicate (max (canvasWidth / 2) 1) ' ')

/-- The collision narration
`"You ran into the {name}.{space:>width$}"` with `width = canvas_width / 2`. -/
def collisionMsg (name : String) (canvasWidth : Nat) : String :=
  "You ran into the " ++ name ++ "." ++ eventPad canvasWidth

/-- The pickup narration
`"You now have the {name}.{space:>width$}"` with `width = canvas_width / 2`. -/
def pickupMsg (name : String) (canvasWidth : Nat) : String :=
  "You now have the " ++ name ++ "." ++ eventPad canvasWidth

/-- The mutable core state threaded through the loop: the legion world
(registry iteration order), the event log (`GameEvents`, append order) and
the inventory (`Inventory`, insertion order of collected cells). -/
structure GameState where
  world : List GameCell
  events : List (String × TuiColor)
  inventory : List GameCell
  deriving DecidableEq, Repr

/-- One directional `match` arm of `TuiSystem::run`: scan the registry in
iteration order for the first cell passing `neighborCheck`; on a hit post
one Blue event and do not move, otherwise translate every cell by
`moveFor d`. -/
def resolveDir (d : Dir) (canvasWidth : Nat) (p : ℚ × ℚ) (s : GameState) :
    GameState :=
  match s.world.find? (neighborCheck d p) with
  | some c =>
      { s with events := s.events ++ [(collisionMsg c.name canvasWidth, TuiColor.Blue)] }
  | none => { s with world := s.world.map (moveFor d) }

/-- The pickup test of `TuiSystem::take_items`: `access == Takeable`,
inside the canvas rectangle, and both coordinates within tolerance of the
player's. -/
def takeTest (p : ℚ × ℚ) (termWidth termHeight : Nat) (c : GameCell) : Bool :=
  decide (c.access = CellAccess.Takeable) &&
  c.inside 1 1 termWidth termHeight &&
  ratNear p.1 c.x && ratNear p.2 c.y

/-- The scan loop of `take_items`: first cell passing `takeTest` in
registry iteration order, together with its entity identity (its index). -/
def scanTake (p : ℚ × ℚ) (termWidth termHeight : Nat) :
    List GameCell → Option (Nat × GameCell)
  | [] => none
  | c :: rest =>
    if takeTest p termWidth termHeight c then some (0, c)
    else (scanTake p termWidth termHeight rest).map (fun ic => (ic.1 + 1, ic.2))

/-- `TuiSystem::take_items`: scan for the first matching Takeable cell; if
found, post one Green event, copy the cell into the inventory, and record
its entity; after the scan, delete the recorded entity from the world. -/
def take_items (p : ℚ × ℚ) (termWidth termHeight canvasWidth : Nat)
    (s : GameState) : GameState :=
  match scanTake p termWidth termHeight s.world with
  | some (i, c) =>
      { world := s.world.eraseIdx i
        events := s.events ++ [(pickupMsg c.name canvasWidth, TuiColor.Green)]
        inventory := s.inventory ++ [c] }
  | none => s

/-- The command-resolution phase of one loop iteration: the four arrow-key
arms run `resolveDir`; the catch-all arm `_ => ()` does nothing.  (The quit
arm never reaches this function; see `step`.) -/
def stepCommand (e : InputEvent) (canvasWidth : Nat) (p : ℚ × ℚ)
    (s : GameState) : GameState :=
  match e with
  | .dir d => resolveDir d canvasWidth p s
  | .quitKey => s
  | .other => s

/-- Terminal-restore actions performed by the quit arm before exiting. -/
inductive TermAction
  | clearScreen
  | showCursor
  deriving DecidableEq, Repr

/-- Outcome of one loop iteration: either the loop continues with a new
state, or the quit arm ran `terminal.clear()`, `terminal.show_cursor()` and
`process::exit(code)` with the state untouched. -/
inductive StepResult
  | next (s : GameState)
  | exited (actions : List TermAction) (code : Nat) (s : GameState)
  deriving DecidableEq, Repr

/-- One full iteration of the `for event in stdin().events()` loop: the
quit key clears the screen, shows the cursor and exits with status 1
before any further resolution; every other event is resolved by
`stepCommand` and then `take_items` runs unconditionally. -/
def step (e : InputEvent) (p : ℚ × ℚ) (termWidth termHeight canvasWidth : Nat)
    (s : GameState) : StepResult :=
  match e with
  | .quitKey =>
      .exited [TermAction.clearScreen, TermAction.showCursor] 1 s
  | _ =>
      .next (take_items p termWidth termHeight canvasWidth
        (stepCommand e canvasWidth p s))

/-- Run the loop over a finite prefix of the input stream, returning the
final state and the exit code if the quit arm ran. -/
def runEvents (p : ℚ × ℚ) (termWidth termHeight canvasWidth : Nat) :
    List InputEvent → GameState → GameState × Option Nat
  | [], s => (s, none)
  | e :: rest, s =>
    match step e p termWidth termHeight canvasWidth s with
    | .next s2 => runEvents p termWidth termHeight canvasWidth rest s2
    | .exited _ code s2 => (s2, some code)

/-- The player's position as created once at startup:
`Player::new((canvas_width as f64 / 2.0).round(), (canvas_height as f64 / 2.0).round())`.
All quantities are exact in `ℚ`, and `Rat.round` rounds half away from zero
for nonnegative arguments exactly as `f64::round` does. -/
def initPlayer (canvasWidth canvasHeight : Nat) : ℚ × ℚ :=
  ((round ((canvasWidth : ℚ) / 2) : ℤ), (round ((canvasHeight : ℚ) / 2) : ℤ))

/-- A whole session: the immutable player binding of `TuiSystem::run`
together with the mutable state. -/
structure Session where
  player : ℚ × ℚ
  state : GameState
  deriving DecidableEq, Repr

/-- One loop iteration at the session level: `player` is a `let` binding
outside the loop and no arm writes to it. -/
def stepSession (e : InputEvent) (termWidth termHeight canvasWidth : Nat)
    (sess : Session) : Session × Option Nat :=
  match step e sess.player termWidth termHeight canvasWidth sess.state with
  | .next s2 => ({ sess with state := s2 }, none)
  | .exited _ code s2 => ({ sess with state := s2 }, some code)

/-- Run the session loop over a finite input prefix. -/
def runSession (termWidth termHeight canvasWidth : Nat) :
    List InputEvent → Session → Session × Option Nat
  | [], sess => (sess, none)
  | e :: rest, sess =>
    match stepSession e termWidth termHeight canvasWidth sess with
    | (sess2, none) => runSession termWidth termHeight canvasWidth rest sess2
    | (sess2, some code) => (sess2, some code)

/-- The spec's collision predicate (§4.2 steps 1–2), written from the
spec's words for comparison with the source's `neighborCheck`: the neighbor
offset for the requested direction is Up → `(x, y-1)`, Down → `(x, y+1)`,
Left → `(x+1, y)`, Right → `(x-1, y)` relative to the player, and a cell
collides when it is Impassable and within component-wise tolerance `< 1`
of both coordinates of that neighbor. -/
def specNeighbor (d : Dir) (p : ℚ × ℚ) : ℚ × ℚ :=
  match d with
  | .up => (p.1, p.2 - 1)
  | .down => (p.1, p.2 + 1)
  | .left => (p.1 + 1, p.2)
  | .right => (p.1 - 1, p.2)

/-- The spec-side collision test: the cell is Impassable and within
component-wise tolerance of `specNeighbor d p`.  The second coordinate is
written with the `±1` moved to the cell side (the two forms are equal,
see `specCollides_iff`) so the kernel can evaluate it. -/
def specCollides (d : Dir) (p : ℚ × ℚ) (c : GameCell) : Bool :=
  decide (c.access = CellAccess.Impassable) &&
  match d with
  | .up => ratNear p.1 c.x && ratNear p.2 (c.y + 1)
  | .down => ratNear p.1 c.x && ratNear p.2 (c.y - 1)
  | .left => ratNear p.1 (c.x - 1) && ratNear p.2 c.y
  | .right => ratNear p.1 (c.x + 1) && ratNear p.2 c.y

/-- The corrected neighbor: the cell position the source's arithmetic
actually tests — Up → `(x, y+1)`, Down → `(x, y-1)`, Left → `(x-1, y)`,
Right → `(x+1, y)` relative to the player. -/
def codeNeighbor (d : Dir) (p : ℚ × ℚ) : ℚ × ℚ :=
  match d with
  | .up => (p.1, p.2 + 1)
  | .down => (p.1, p.2 - 1)
  | .left => (p.1 - 1, p.2)
  | .right => (p.1 + 1, p.2)

/-- Collision test phrased with `codeNeighbor`, the corrected spec-side
characterisation to be compared with the source's `neighborCheck`: the
cell is Impassable and within component-wise tolerance of
`codeNeighbor d p` (see `codeCollides_iff`). -/
def codeCollides (d : Dir) (p : ℚ × ℚ) (c : GameCell) : Bool :=
  decide (c.access = CellAccess.Impassable) &&
  match d with
  | .up => ratNear p.1 c.x && ratNear p.2 (c.y - 1)
  | .down => ratNear p.1 c.x && ratNear p.2 (c.y + 1)
  | .left => ratNear p.1 (c.x + 1) && ratNear p.2 c.y
  | .right => ratNear p.1 (c.x - 1) && ratNear p.2 c.y

/-- Concrete scenario cell: the Wall of §8, placed at `(10, 9)`. -/
def wallCell : GameCell :=
  { x := 10, y := 9, kind := .Wall, access := .Impassable, name := "Wall", color := .White }

/-- Concrete scenario state holding only `wallCell`. -/
def wallState : GameState := { world := [wallCell], events := [], inventory := [] }

/-- A Wall at `(10, 11)`, the cell the source's Up arm actually tests
against a player at `(10, 10)`. -/
def upWall : GameCell :=
  { x := 10, y := 11, kind := .Wall, access := .Impassable, name := "Wall", color := .White }

/-- Concrete scenario state holding only `upWall`. -/
def upWallState : GameState := { world := [upWall], events := [], inventory := [] }

/-- A Takeable sword at `(10, 10)`, coinciding with the scenario player. -/
def swordCell : GameCell :=
  { x := 10, y := 10, kind := .EdgedWeapon, access := .Takeable, name := "Sword", color := .White }

/-- Concrete scenario state holding only `swordCell`. -/
def swordState : GameState := { world := [swordCell], events := [], inventory := [] }

theorem ratNear_iff (a : ℚ) (n : ℤ) : ratNear a n = true ↔ |a - (n : ℚ)| < 1 := by
  have hden : (0 : ℚ) < (a.den : ℚ) := by exact_mod_cast a.pos
  have key : a - (n : ℚ) = ((a.num - n * (a.den : ℤ) : ℤ) : ℚ) / (a.den : ℚ) := by
    push_cast
    rw [sub_div, Rat.num_div_den, mul_div_assoc, div_self (ne_of_gt hden), mul_one]
  rw [ratNear, decide_eq_true_eq, key, abs_div, abs_of_pos hden, div_lt_one hden,
    ← Int.cast_abs, Int.abs_eq_natAbs]
  exact_mod_cast Iff.rfl

theorem ratNear_int_iff (m n : ℤ) : ratNear (m : ℚ) n = true ↔ m = n := by
  rw [ratNear_iff,
    show (m : ℚ) - (n : ℚ) = ((m - n : ℤ) : ℚ) by push_cast; ring,
    ← Int.cast_abs,
    show (1 : ℚ) = ((1 : ℤ) : ℚ) by norm_num,
    Int.cast_lt, Int.abs_lt_one_iff, sub_eq_zero]

theorem neighborCheck_eq_codeCollides (d : Dir) (p : ℚ × ℚ) (c : GameCell) :
    neighborCheck d p c = codeCollides d p c := by
  cases d <;> simp [neighborCheck, codeCollides, Bool.and_assoc]

theorem codeCollides_iff (d : Dir) (p : ℚ × ℚ) (c : GameCell) :
    codeCollides d p c = true ↔
      c.access = CellAccess.Impassable ∧
      |(codeNeighbor d p).1 - (c.x : ℚ)| < 1 ∧ |(codeNeighbor d p).2 - (c.y : ℚ)| < 1 := by
  cases d
  case up =>
    simp only [codeCollides, codeNeighbor, Bool.and_eq_true, decide_eq_true_eq,
      ratNear_iff, and_assoc]
    rw [show p.2 - ((c.y - 1 : ℤ) : ℚ) = p.2 + 1 - (c.y : ℚ) from by push_cast; ring]
  case down =>
    simp only [codeCollides, codeNeighbor, Bool.and_eq_true, decide_eq_true_eq,
      ratNear_iff, and_assoc]
    rw [show p.2 - ((c.y + 1 : ℤ) : ℚ) = p.2 - 1 - (c.y : ℚ) from by push_cast; ring]
  case left =>
    simp only [codeCollides, codeNeighbor, Bool.and_eq_true, decide_eq_true_eq,
      ratNear_iff, and_assoc]
    rw [show p.1 - ((c.x + 1 : ℤ) : ℚ) = p.1 - 1 - (c.x : ℚ) from by push_cast; ring]
  case right =>
    simp only [codeCollides, codeNeighbor, Bool.and_eq_true, decide_eq_true_eq,
      ratNear_iff, and_assoc]
    rw [show p.1 - ((c.x - 1 : ℤ) : ℚ) = p.1 + 1 - (c.x : ℚ) from by push_cast; ring]

theorem specCollides_iff (d : Dir) (p : ℚ × ℚ) (c : GameCell) :
    specCollides d p c = true ↔
      c.access = CellAccess.Impassable ∧
      |(specNeighbor d p).1 - (c.x : ℚ)| < 1 ∧ |(specNeighbor d p).2 - (c.y : ℚ)| < 1 := by
  cases d
  case up =>
    simp only [specCollides, specNeighbor, Bool.and_eq_true, decide_eq_true_eq,
      ratNear_iff, and_assoc]
    rw [show p.2 - ((c.y + 1 : ℤ) : ℚ) = p.2 - 1 - (c.y : ℚ) from by push_cast; ring]
  case down =>
    simp only [specCollides, specNeighbor, Bool.and_eq_true, decide_eq_true_eq,
      ratNear_iff, and_assoc]
    rw [show p.2 - ((c.y - 1 : ℤ) : ℚ) = p.2 + 1 - (c.y : ℚ) from by push_cast; ring]
  case left =>
    simp only [specCollides, specNeighbor, Bool.and_eq_true, decide_eq_true_eq,
      ratNear_iff, and_assoc]
    rw [show p.1 - ((c.x - 1 : ℤ) : ℚ) = p.1 + 1 - (c.x : ℚ) from by push_cast; ring]
  case right =>
    simp only [specCollides, specNeighbor, Bool.and_eq_true, decide_eq_true_eq,
      ratNear_iff, and_assoc]
    rw [show p.1 - ((c.x + 1 : ℤ) : ℚ) = p.1 - 1 - (c.x : ℚ) from by push_cast; ring]

theorem inside_iff (c : GameCell) (l t r b : Nat) :
    c.inside l t r b = true ↔
      (l : Int) ≤ c.x ∧ c.x ≤ (r : Int) ∧ (t : Int) ≤ c.y ∧ c.y ≤ (b : Int) := by
  simp [GameCell.inside, Bool.and_eq_true, and_assoc]

theorem takeTest_iff (p : ℚ × ℚ) (tw th : Nat) (c : GameCell) :
    takeTest p tw th c = true ↔
      c.access = CellAccess.Takeable ∧
      ((1 : Int) ≤ c.x ∧ c.x ≤ (tw : Int) ∧ (1 : Int) ≤ c.y ∧ c.y ≤ (th : Int)) ∧
      |p.1 - (c.x : ℚ)| < 1 ∧ |p.2 - (c.y : ℚ)| < 1 := by
  simp only [takeTest, Bool.and_eq_true, decide_eq_true_eq, ratNear_iff, inside_iff, and_assoc]
  norm_cast

theorem scanTake_eq_none_iff (p : ℚ × ℚ) (tw th : Nat) (l : List GameCell) :
    scanTake p tw th l = none ↔ ∀ c ∈ l, takeTest p tw th c = false := by
  induction l with
  | nil => simp [scanTake]
  | cons a rest ih =>
    by_cases h : takeTest p tw th a = true
    · simp [scanTake, h]
    · simp only [Bool.not_eq_true] at h
      simp [scanTake, h, ih]

theorem scanTake_some_spec (p : ℚ × ℚ) (tw th : Nat) :
    ∀ (l : List GameCell) (i : Nat) (c : GameCell),
      scanTake p tw th l = some (i, c) →
      l[i]? = some c ∧ takeTest p tw th c = true ∧
        ∀ j, j < i → ∃ cj, l[j]? = some cj ∧ takeTest p tw th cj = false := by
  intro l
  induction l with
  | nil => intro i c h; simp [scanTake] at h
  | cons a rest ih =>
    intro i c h
    by_cases ha : takeTest p tw th a = true
    · simp only [scanTake, ha, if_pos, Option.some.injEq, Prod.mk.injEq] at h
      obtain ⟨hi, hc⟩ := h
      subst hi; subst hc
      exact ⟨List.getElem?_cons_zero, ha, fun j hj => absurd hj (Nat.not_lt_zero j)⟩
    · have ha' : takeTest p tw th a = false := by simpa using ha
      simp only [scanTake, ha'] at h
      rw [if_neg (by simp)] at h
      obtain ⟨⟨i', c'⟩, hrest, heq⟩ := Option.map_eq_some'.mp h
      obtain ⟨hi, hc⟩ := Prod.mk.injEq .. ▸ heq
      subst hi; subst hc
      obtain ⟨hget, htest, hfirst⟩ := ih i' c' hrest
      refine ⟨by simpa using hget, htest, ?_⟩
      intro j hj
      cases j with
      | zero => exact ⟨a, List.getElem?_cons_zero, ha'⟩
      | succ j' =>
        obtain ⟨cj, h1, h2⟩ := hfirst j' (Nat.lt_of_succ_lt_succ hj)
        exact ⟨cj, by simpa using h1, h2⟩

theorem list_decomp_of_getElem? {α : Type} (l : List α) (i : Nat) (c : α)
    (h : l[i]? = some c) : l = l.take i ++ c :: l.drop (i + 1) := by
  obtain ⟨hlt, hget⟩ := List.getElem?_eq_some.mp h
  conv_lhs => rw [← List.take_append_drop i l]
  rw [← List.getElem_cons_drop l i hlt, hget]

theorem countP_take_eq_zero {α : Type} (test : α → Bool) (l : List α) (i : Nat)
    (hfirst : ∀ j, j < i → ∃ cj, l[j]? = some cj ∧ test cj = false) :
    (l.take i).countP test = 0 := by
  rw [List.countP_eq_zero]
  intro a ha
  obtain ⟨j, hj, hget⟩ := List.mem_take_iff_getElem.mp ha
  have hji : j < i := lt_of_lt_of_le hj inf_le_left
  have hjl : j < l.length := lt_of_lt_of_le hj inf_le_right
  obtain ⟨cj, hcj, hfalse⟩ := hfirst j hji
  rw [List.getElem?_eq_getElem hjl, hget] at hcj
  have : cj = a := by injection hcj.symm
  rw [← this, hfalse]
  simp

theorem take_items_of_scan_none (p : ℚ × ℚ) (tw th cw : Nat) (s : GameState)
    (h : scanTake p tw th s.world = none) : take_items p tw th cw s = s := by
  simp [take_items, h]

theorem take_items_of_scan_some (p : ℚ × ℚ) (tw th cw : Nat) (s : GameState)
    (i : Nat) (c : GameCell) (h : scanTake p tw th s.world = some (i, c)) :
    take_items p tw th cw s =
      { world := s.world.eraseIdx i
        events := s.events ++ [(pickupMsg c.name cw, TuiColor.Green)]
        inventory := s.inventory ++ [c] } := by
  simp [take_items, h]

theorem resolveDir_of_find_some (d : Dir) (cw : Nat) (p : ℚ × ℚ) (s : GameState)
    (c : GameCell) (h : s.world.find? (neighborCheck d p) = some c) :
    resolveDir d cw p s =
      { s with events := s.events ++ [(collisionMsg c.name cw, TuiColor.Blue)] } := by
  simp [resolveDir, h]

theorem resolveDir_of_no_collision (d : Dir) (cw : Nat) (p : ℚ × ℚ) (s : GameState)
    (h : ∀ c ∈ s.world, codeCollides d p c = false) :
    resolveDir d cw p s = { s with world := s.world.map (moveFor d) } := by
  have hnone : s.world.find? (neighborCheck d p) = none :=
    List.find?_eq_none.mpr fun x hx => by
      rw [neighborCheck_eq_codeCollides]
      simp [h x hx]
  simp [resolveDir, hnone]

end Blademaster

namespace Blademaster

/-- No arm of the loop writes to the `player` binding: one session step
preserves it. -/
theorem stepSession_player (e : InputEvent) (tw th cw : Nat) (sess : Session) :
    ((stepSession e tw th cw sess).1).player = sess.player := by
  unfold stepSession
  rcases hstep : step e sess.player tw th cw sess.state with s2 | ⟨a, code, s2⟩ <;> rfl

/-- C1 counterexample: at the claim's own scenario — player `(10,10)`,
Impassable Wall at `(10,9)`, command Up — the Wall does satisfy the claim's
tolerance condition at the claimed offset `(x, y-1)`, yet the source posts
no event and translates the world, so the claim as stated is false. -/
theorem C1_counterexample :
    specCollides Dir.up (10, 10) wallCell = true ∧
    (resolveDir Dir.up 80 (10, 10) wallState).events = [] ∧
    (resolveDir Dir.up 80 (10, 10) wallState).world ≠ wallState.world := by decide

/-- C1 (amended): for every direction command, collision is detected iff
some Impassable cell lies within component-wise tolerance `< 1` of both
coordinates of the neighbor offset the source actually tests — Up:
`(x, y+1)`, Down: `(x, y-1)`, Left: `(x-1, y)`, Right: `(x+1, y)` relative
to the player — taking the first such cell in registry iteration order; in
particular, with the player at `(10,10)` and an Impassable Wall at
`(10,11)`, the Up command detects a collision with that Wall, posts a Blue
event containing the Wall narration, and leaves the world unchanged. -/
theorem C1_collision_corrected_offsets :
    (∀ (d : Dir) (p : ℚ × ℚ) (c : GameCell),
        neighborCheck d p c = true ↔
          c.access = CellAccess.Impassable ∧
          |(codeNeighbor d p).1 - (c.x : ℚ)| < 1 ∧
          |(codeNeighbor d p).2 - (c.y : ℚ)| < 1) ∧
    (∀ (d : Dir) (cw : Nat) (p : ℚ × ℚ) (s : GameState),
        (∃ c ∈ s.world, codeCollides d p c = true) ↔
          (resolveDir d cw p s).events ≠ s.events) ∧
    (∀ (d : Dir) (cw : Nat) (p : ℚ × ℚ) (s : GameState) (c : GameCell),
        s.world.find? (neighborCheck d p) = some c →
          resolveDir d cw p s =
            { s with events := s.events ++ [(collisionMsg c.name cw, TuiColor.Blue)] }) ∧
    resolveDir Dir.up 80 (10, 10) upWallState =
      { upWallState with events := [(collisionMsg "Wall" 80, TuiColor.Blue)] } := by
  refine ⟨?_, ?_, ?_, ?_⟩
  · intro d p c
    rw [neighborCheck_eq_codeCollides, codeCollides_iff]
  · intro d cw p s
    constructor
    · rintro ⟨c, hc, hcoll⟩
      have hsome : (s.world.find? (neighborCheck d p)).isSome = true :=
        List.find?_isSome.mpr ⟨c, hc, by rw [neighborCheck_eq_codeCollides]; exact hcoll⟩
      obtain ⟨c0, hc0⟩ := Option.isSome_iff_exists.mp hsome
      rw [resolveDir_of_find_some d cw p s c0 hc0]
      simp
    · intro hne
      by_contra hno
      push_neg at hno
      have hall : ∀ c ∈ s.world, codeCollides d p c = false := fun c hc => by
        simpa using hno c hc
      rw [resolveDir_of_no_collision d cw p s hall] at hne
      simp at hne
  · exact resolveDir_of_find_some
  · decide

/-- C1 witness: the amended theorem applied at the concrete `(10,11)` Wall
scenario. -/
theorem C1_witness :
    upWallState.world.find? (neighborCheck Dir.up (10, 10)) = some upWall ∧
    resolveDir Dir.up 80 (10, 10) upWallState =
      { upWallState with events := [(collisionMsg "Wall" 80, TuiColor.Blue)] } :=
  ⟨by decide, by
    have h := C1_collision_corrected_offsets.2.2.1 Dir.up 80 (10, 10) upWallState upWall
      (by decide)
    simpa using h⟩


/-- C2 counterexample: with the player at `(10,10)` and a Wall at
`(10,11)`, no Impassable cell is within tolerance of the claim's Up
neighbor offset `(x, y-1)`, yet the Up command does not translate the
world and does post an event, so the claim as stated is false. -/
theorem C2_counterexample :
    (∀ c ∈ upWallState.world, specCollides Dir.up (10, 10) c = false) ∧
    (resolveDir Dir.up 80 (10, 10) upWallState).world ≠
      upWallState.world.map (moveFor Dir.up) ∧
    (resolveDir Dir.up 80 (10, 10) upWallState).events ≠ upWallState.events := by decide

/-- C2 (amended): if no Impassable cell lies within tolerance `< 1` of the
neighbor offset the source actually tests for direction `d`, then every
cell is translated by exactly one unit opposite the requested direction
(Up moves cells down, Down up, Left right, Right left), no event is
posted, and the player's stored position is unchanged; with an empty
registry any direction command translates the (empty) world, leaves the
player unchanged, and posts no events. -/
theorem C2_no_collision_moves_world :
    (∀ (d : Dir) (cw : Nat) (p : ℚ × ℚ) (s : GameState),
        (∀ c ∈ s.world, codeCollides d p c = false) →
          resolveDir d cw p s = { s with world := s.world.map (moveFor d) }) ∧
    (∀ c : GameCell,
        moveFor Dir.up c = { c with y := c.y - 1 } ∧
        moveFor Dir.down c = { c with y := c.y + 1 } ∧
        moveFor Dir.left c = { c with x := c.x + 1 } ∧
        moveFor Dir.right c = { c with x := c.x - 1 }) ∧
    (∀ (e : InputEvent) (tw th cw : Nat) (sess : Session),
        ((stepSession e tw th cw sess).1).player = sess.player) ∧
    (∀ (d : Dir) (p : ℚ × ℚ) (tw th cw : Nat),
        step (InputEvent.dir d) p tw th cw { world := [], events := [], inventory := [] } =
          .next { world := [], events := [], inventory := [] }) := by
  refine ⟨?_, ?_, stepSession_player, ?_⟩
  · exact resolveDir_of_no_collision
  · intro c
    exact ⟨rfl, rfl, rfl, rfl⟩
  · intro d p tw th cw
    rfl

/-- C2 witness: the amended theorem applied to a registry holding one
Takeable (non-Impassable) cell. -/
theorem C2_witness :
    (∀ c ∈ swordState.world, codeCollides Dir.up (10, 10) c = false) ∧
    resolveDir Dir.up 80 (10, 10) swordState =
      { swordState with world := swordState.world.map (moveFor Dir.up) } :=
  ⟨by decide, C2_no_collision_moves_world.1 Dir.up 80 (10, 10) swordState (by decide)⟩

/-- C3 counterexample: with the player at `(10,10)`, a Wall at `(10,9)`
lies within tolerance of the claim's Up neighbor offset `(x, y-1)`, yet
the Up command changes every cell's position and appends no event, so the
claim as stated is false. -/
theorem C3_counterexample :
    specCollides Dir.up (10, 10) wallCell = true ∧
    (resolveDir Dir.up 80 (10, 10) wallState).world ≠ wallState.world ∧
    (resolveDir Dir.up 80 (10, 10) wallState).events = wallState.events := by decide

/-- C3 (amended): for every direction command, if an Impassable cell lies
within tolerance `< 1` of the neighbor offset the source actually tests,
then every cell's position and the inventory are unchanged by the move
resolution, and exactly one new event is appended, with color Blue and
text naming the first matching cell in iteration order, built by
`collisionMsg` whose padding is `max (canvasWidth / 2) 1` spaces. -/
theorem C3_collision_frame_effect :
    (∀ (d : Dir) (cw : Nat) (p : ℚ × ℚ) (s : GameState),
        (∃ c ∈ s.world, codeCollides d p c = true) →
          (resolveDir d cw p s).world = s.world ∧
          (resolveDir d cw p s).inventory = s.inventory ∧
          ∃ (i : Nat) (c0 : GameCell), s.world[i]? = some c0 ∧ codeCollides d p c0 = true ∧
            (∀ j, j < i → ∃ cj, s.world[j]? = some cj ∧ codeCollides d p cj = false) ∧
            (resolveDir d cw p s).events =
              s.events ++ [(collisionMsg c0.name cw, TuiColor.Blue)]) ∧
    (∀ (name : String) (cw : Nat),
        collisionMsg name cw = "You ran into the " ++ name ++ "." ++ eventPad cw) ∧
    (∀ cw : Nat, (eventPad cw).length = max (cw / 2) 1) := by
  refine ⟨?_, fun _ _ => rfl, ?_⟩
  · rintro d cw p s ⟨c, hc, hcoll⟩
    have hsome : (s.world.find? (neighborCheck d p)).isSome = true :=
      List.find?_isSome.mpr ⟨c, hc, by rw [neighborCheck_eq_codeCollides]; exact hcoll⟩
    obtain ⟨c0, hc0⟩ := Option.isSome_iff_exists.mp hsome
    obtain ⟨hp, i, hi, hget, hfirst⟩ := List.find?_eq_some_iff_getElem.mp hc0
    rw [resolveDir_of_find_some d cw p s c0 hc0]
    refine ⟨rfl, rfl, i, c0, ?_, ?_, ?_, rfl⟩
    · rw [List.getElem?_eq_getElem hi, hget]
    · rw [← neighborCheck_eq_codeCollides]; exact hp
    · intro j hj
      refine ⟨s.world.get ⟨j, by omega⟩, List.getElem?_eq_getElem (by omega), ?_⟩
      have := hfirst j hj
      rw [← neighborCheck_eq_codeCollides]
      simpa using this
  · intro cw
    simp [eventPad]

/-- C3 witness: the amended theorem applied at the `(10,11)` Wall
scenario. -/
theorem C3_witness :
    (∃ c ∈ upWallState.world, codeCollides Dir.up (10, 10) c = true) ∧
    (resolveDir Dir.up 80 (10, 10) upWallState).world = upWallState.world :=
  ⟨⟨upWall, by decide, by decide⟩,
   (C3_collision_frame_effect.1 Dir.up 80 (10, 10) upWallState
      ⟨upWall, by decide, by decide⟩).1⟩


/-- The startup session: `player` assigned once from the rounded canvas
center, before the loop begins. -/
def initSession (canvasWidth canvasHeight : Nat) (s : GameState) : Session :=
  { player := initPlayer canvasWidth canvasHeight, state := s }

/-- The player binding is preserved across any finite run of the loop. -/
theorem runSession_player :
    ∀ (es : List InputEvent) (tw th cw : Nat) (sess : Session),
      ((runSession tw th cw es sess).1).player = sess.player := by
  intro es
  induction es with
  | nil => intro tw th cw sess; rfl
  | cons e rest ih =>
    intro tw th cw sess
    unfold runSession
    rcases hs : stepSession e tw th cw sess with ⟨sess2, code⟩
    have hp : sess2.player = sess.player := by
      have h2 := stepSession_player e tw th cw sess
      rw [hs] at h2
      exact h2
    cases code with
    | none => rw [ih tw th cw sess2, hp]
    | some c => exact hp

/-- C4: the pickup resolver scans cells in registry iteration order and
selects the first Takeable cell inside `[1,1]..[term_width,term_height]`
whose position matches the player's within tolerance `< 1` on both axes;
when found, exactly one Green `pickupMsg` event is appended, exactly one
copy of the cell is added to the inventory, and that cell is deleted from
the registry — at most one of each per step. -/
theorem C4_pickup_first_match :
    (∀ (p : ℚ × ℚ) (tw th : Nat) (c : GameCell),
        takeTest p tw th c = true ↔
          c.access = CellAccess.Takeable ∧
          ((1 : Int) ≤ c.x ∧ c.x ≤ (tw : Int) ∧ (1 : Int) ≤ c.y ∧ c.y ≤ (th : Int)) ∧
          |p.1 - (c.x : ℚ)| < 1 ∧ |p.2 - (c.y : ℚ)| < 1) ∧
    (∀ (p : ℚ × ℚ) (tw th cw : Nat) (s : GameState) (i : Nat) (c : GameCell),
        scanTake p tw th s.world = some (i, c) →
          s.world[i]? = some c ∧ takeTest p tw th c = true ∧
          (∀ j, j < i → ∃ cj, s.world[j]? = some cj ∧ takeTest p tw th cj = false) ∧
          take_items p tw th cw s =
            { world := s.world.eraseIdx i
              events := s.events ++ [(pickupMsg c.name cw, TuiColor.Green)]
              inventory := s.inventory ++ [c] }) ∧
    (∀ (name : String) (cw : Nat),
        pickupMsg name cw = "You now have the " ++ name ++ "." ++ eventPad cw) := by
  refine ⟨takeTest_iff, ?_, fun _ _ => rfl⟩
  intro p tw th cw s i c h
  obtain ⟨hget, htest, hfirst⟩ := scanTake_some_spec p tw th s.world i c h
  exact ⟨hget, htest, hfirst, take_items_of_scan_some p tw th cw s i c h⟩

/-- C4 witness: the theorem applied to a sword coinciding with the
player. -/
theorem C4_witness :
    scanTake (10, 10) 100 50 swordState.world = some (0, swordCell) ∧
    take_items (10, 10) 100 50 80 swordState =
      { world := swordState.world.eraseIdx 0
        events := swordState.events ++ [(pickupMsg swordCell.name 80, TuiColor.Green)]
        inventory := swordState.inventory ++ [swordCell] } :=
  ⟨by decide,
   (C4_pickup_first_match.2.1 (10, 10) 100 50 80 swordState 0 swordCell (by decide)).2.2.2⟩

/-- C5: pickup is idempotent per physical item — the collected cell is
removed from the registry (the old world is a permutation of the cell
consed onto the new world), the number of matching cells drops by exactly
one, and if the collected cell was the only match, a second pickup scan at
the same player position finds no match. -/
theorem C5_pickup_idempotent :
    ∀ (p : ℚ × ℚ) (tw th cw : Nat) (s : GameState) (i : Nat) (c : GameCell),
      scanTake p tw th s.world = some (i, c) →
        s.world.Perm (c :: (take_items p tw th cw s).world) ∧
        (take_items p tw th cw s).world.countP (takeTest p tw th) + 1 =
          s.world.countP (takeTest p tw th) ∧
        (s.world.countP (takeTest p tw th) = 1 →
          scanTake p tw th (take_items p tw th cw s).world = none) := by
  intro p tw th cw s i c h
  obtain ⟨hget, htest, hfirst⟩ := scanTake_some_spec p tw th s.world i c h
  have hdecomp : s.world = s.world.take i ++ c :: s.world.drop (i + 1) :=
    list_decomp_of_getElem? _ _ _ hget
  have herase : (take_items p tw th cw s).world = s.world.take i ++ s.world.drop (i + 1) := by
    rw [take_items_of_scan_some p tw th cw s i c h]
    exact List.eraseIdx_eq_take_drop_succ _ _
  have hz : (s.world.take i).countP (takeTest p tw th) = 0 :=
    countP_take_eq_zero _ _ _ hfirst
  have hcount : (take_items p tw th cw s).world.countP (takeTest p tw th) + 1 =
      s.world.countP (takeTest p tw th) := by
    rw [herase]
    conv_rhs => rw [hdecomp]
    rw [List.countP_append, List.countP_append, List.countP_cons_of_pos _ _ htest, hz]
    ring
  refine ⟨?_, hcount, ?_⟩
  · rw [herase]
    conv_lhs => rw [hdecomp]
    exact List.perm_middle
  · intro hone
    have hw : (take_items p tw th cw s).world.countP (takeTest p tw th) = 0 := by omega
    rw [scanTake_eq_none_iff]
    intro c2 hc2
    have h0 := List.countP_eq_zero.mp hw c2 hc2
    simpa using h0

/-- C5 witness: the theorem applied to a single sword under the player;
the second scan finds nothing. -/
theorem C5_witness :
    scanTake (10, 10) 100 50 swordState.world = some (0, swordCell) ∧
    swordState.world.countP (takeTest (10, 10) 100 50) = 1 ∧
    scanTake (10, 10) 100 50 (take_items (10, 10) 100 50 80 swordState).world = none :=
  ⟨by decide, by decide,
   (C5_pickup_idempotent (10, 10) 100 50 80 swordState 0 swordCell (by decide)).2.2
     (by decide)⟩

/-- C6: an input event that is none of Up/Down/Left/Right/quit leaves the
state unchanged by command resolution, but the pickup scan still runs in
that step exactly as after a directional command, so a coinciding Takeable
cell is still collected after a no-op input. -/
theorem C6_noop_input_still_picks_up :
    (∀ (p : ℚ × ℚ) (tw th cw : Nat) (s : GameState),
        step InputEvent.other p tw th cw s = .next (take_items p tw th cw s)) ∧
    (∀ (cw : Nat) (p : ℚ × ℚ) (s : GameState), stepCommand InputEvent.other cw p s = s) ∧
    step InputEvent.other (10, 10) 100 50 80 swordState =
      .next { world := [], events := [(pickupMsg "Sword" 80, TuiColor.Green)],
              inventory := [swordCell] } :=
  ⟨fun _ _ _ _ _ => rfl, fun _ _ _ => rfl, by decide⟩

/-- C7: the quit command clears the screen and shows the cursor, then
exits with status 1 (non-zero) with the state untouched, before any move
resolution, pickup or event posting; for any remaining input the state is
never mutated again. -/
theorem C7_quit_restores_then_exits :
    (∀ (p : ℚ × ℚ) (tw th cw : Nat) (s : GameState),
        step InputEvent.quitKey p tw th cw s =
          .exited [TermAction.clearScreen, TermAction.showCursor] 1 s) ∧
    (∀ (p : ℚ × ℚ) (tw th cw : Nat) (rest : List InputEvent) (s : GameState),
        runEvents p tw th cw (InputEvent.quitKey :: rest) s = (s, some 1)) ∧
    (1 : Nat) ≠ 0 :=
  ⟨fun _ _ _ _ _ => rfl, fun _ _ _ _ _ _ => rfl, one_ne_zero⟩

/-- C8: the player's startup position is component-wise integer-valued
(the rounding of the canvas center), and on integer-valued coordinates
the source's tolerance test `|a - n| < 1` is exact integer equality; the
third conjunct ties the executable test to the tolerance it implements. -/
theorem C8_integer_player_tolerance_is_equality :
    (∀ w h : Nat, ∃ a b : ℤ, initPlayer w h = ((a : ℚ), (b : ℚ))) ∧
    (∀ m n : ℤ, ratNear (m : ℚ) n = true ↔ m = n) ∧
    (∀ (a : ℚ) (n : ℤ), ratNear a n = true ↔ |a - (n : ℚ)| < 1) :=
  ⟨fun w h => ⟨round ((w : ℚ) / 2), round ((h : ℚ) / 2), rfl⟩, ratNear_int_iff, ratNear_iff⟩

/-- C9: the player's stored position is constant for the whole session —
one step preserves it, any finite run preserves it, and a run started from
the startup session still carries the rounded canvas center. -/
theorem C9_player_assigned_once :
    (∀ (e : InputEvent) (tw th cw : Nat) (sess : Session),
        ((stepSession e tw th cw sess).1).player = sess.player) ∧
    (∀ (es : List InputEvent) (tw th cw : Nat) (sess : Session),
        ((runSession tw th cw es sess).1).player = sess.player) ∧
    (∀ (es : List InputEvent) (tw th cwidth cheight : Nat) (s : GameState),
        ((runSession tw th cwidth es (initSession cwidth cheight s)).1).player =
          initPlayer cwidth cheight) := by
  refine ⟨stepSession_player, runSession_player, ?_⟩
  intro es tw th cwidth cheight s
  rw [runSession_player]
  rfl

/-- C10: the pickup deletion is exact — when no cell matches, the whole
state is unchanged; when the scan finds entity `i`, exactly that entity is
removed (the cells before and after it are preserved verbatim) and one
event and one inventory entry are appended. -/
theorem C10_deferred_exact_delete :
    (∀ (p : ℚ × ℚ) (tw th cw : Nat) (s : GameState),
        scanTake p tw th s.world = none →
          take_items p tw th cw s = s) ∧
    (∀ (p : ℚ × ℚ) (tw th cw : Nat) (s : GameState) (i : Nat) (c : GameCell),
        scanTake p tw th s.world = some (i, c) →
          (take_items p tw th cw s).world = s.world.take i ++ s.world.drop (i + 1) ∧
          s.world = s.world.take i ++ c :: s.world.drop (i + 1) ∧
          (take_items p tw th cw s).events =
            s.events ++ [(pickupMsg c.name cw, TuiColor.Green)] ∧
          (take_items p tw th cw s).inventory = s.inventory ++ [c]) := by
  refine ⟨take_items_of_scan_none, ?_⟩
  intro p tw th cw s i c h
  obtain ⟨hget, _, _⟩ := scanTake_some_spec p tw th s.world i c h
  rw [take_items_of_scan_some p tw th cw s i c h]
  exact ⟨List.eraseIdx_eq_take_drop_succ _ _, list_decomp_of_getElem? _ _ _ hget, rfl, rfl⟩

/-- C10 witness: the theorem applied at both a no-match state and a
one-match state. -/
theorem C10_witness :
    (scanTake (10, 10) 100 50 wallState.world = none ∧
      take_items (10, 10) 100 50 80 wallState = wallState) ∧
    (scanTake (10, 10) 100 50 swordState.world = some (0, swordCell) ∧
      (take_items (10, 10) 100 50 80 swordState).world =
        swordState.world.take 0 ++ swordState.world.drop 1) :=
  ⟨⟨by decide, C10_deferred_exact_delete.1 (10, 10) 100 50 80 wallState (by decide)⟩,
   ⟨by decide,
    (C10_deferred_exact_delete.2 (10, 10) 100 50 80 swordState 0 swordCell (by decide)).1⟩⟩

end Blademaster
